import Mathlib

/-!
Verification of `non-empty-vec` (`src/lib.rs`) against its specification.

The development shallowly embeds the library: the `NonEmpty<T>` wrapper over
`Vec<T>` becomes a structure wrapping a `List`, and the in-place
`DrainFilter` cursor becomes a record of the five zone indices together with
the physical buffer contents.  Raw-pointer reads return the value physically
present in the slot (stale values remain after a move-out, exactly as the
bytes do in the real buffer), raw-pointer writes update the slot, and
operations that can panic return `Option`/`Except`.

A modelling point that matters below: the source's `DrainFilter` stores only
a raw pointer to the buffer (plus `PhantomData`); its `Drop` impl performs
two sliding loops and never updates the vector's length.  Consequently the
container observed after the cursor is dropped is the whole `old_len`-sized
buffer, which is how it is embedded here.
-/

namespace NonEmptyVec

/-- `pub struct NonEmpty<T>(Vec<T>);` — the wrapper itself carries no proof,
non-emptiness is by construction (source line 19). -/
structure NonEmpty (α : Type) where
  toList : List α
deriving Repr, DecidableEq

/-- `NonEmpty::new(v)` builds the singleton container (lines 22-25). -/
def NonEmpty.new (x : α) : NonEmpty α := ⟨[x]⟩

/-- `NonEmpty::len` (lines 56-59); the source returns `NonZeroUsize`,
modelled as the plain length. -/
def NonEmpty.length (v : NonEmpty α) : Nat := v.toList.length

/-- `NonEmpty::push` (lines 121-124): delegates to `Vec::push`. -/
def NonEmpty.push (v : NonEmpty α) (x : α) : NonEmpty α := ⟨v.toList ++ [x]⟩

/-- `NonEmpty::pop` (lines 112-119): `None` when `len <= 1`, otherwise
`Vec::pop`, which removes and returns the last element. -/
def NonEmpty.pop (v : NonEmpty α) : Option α × NonEmpty α :=
  if v.toList.length ≤ 1 then (none, v)
  else (v.toList.getLast?, ⟨v.toList.dropLast⟩)

/-- `NonEmpty::truncate` (lines 126-129): delegates to `Vec::truncate`,
which keeps the first `min(len, n)` elements.  The source takes a
`NonZeroUsize`; positivity of the argument is a hypothesis where needed. -/
def NonEmpty.truncate (v : NonEmpty α) (n : Nat) : NonEmpty α := ⟨v.toList.take n⟩

/-- `pub struct EmptyError;` (lines 164-165). -/
structure EmptyError where
deriving Repr, DecidableEq

/-- `impl TryFrom<Vec<T>> for NonEmpty<T>` (lines 167-176). -/
def NonEmpty.tryFrom (l : List α) : Except EmptyError (NonEmpty α) :=
  if l.isEmpty then .error ⟨⟩ else .ok ⟨l⟩

/-- `impl Serialize for NonEmpty<T>` (lines 525-530): serializes exactly
`as_slice()`, i.e. the plain ordered list of elements. -/
def NonEmpty.serialize (v : NonEmpty α) : List α := v.toList

/-- `impl Deserialize for NonEmpty<T>` (lines 532-538): deserialize the
underlying sequence, then `try_from`, turning `EmptyError` into the custom
message `"empty vector"`. -/
def NonEmpty.deserialize (l : List α) : Except String (NonEmpty α) :=
  match NonEmpty.tryFrom l with
  | .error _ => .error "empty vector"
  | .ok v => .ok v

/-- One endpoint of a `RangeBounds<usize>` (std's `core::ops::Bound`). -/
inductive Bound where
  | included (n : Nat)
  | excluded (n : Nat)
  | unbounded
deriving Repr, DecidableEq

/-- A `RangeBounds<usize>` value: a start bound and an end bound. -/
structure RangeB where
  start : Bound
  stop : Bound
deriving Repr, DecidableEq

/-- The start index a bound denotes (std semantics of `Vec::drain`). -/
def startIdx : Bound → Nat
  | .included s => s
  | .excluded s => s + 1
  | .unbounded => 0

/-- The (exclusive) end index a bound denotes for a buffer of length `len`. -/
def endIdx : Bound → Nat → Nat
  | .included e, _ => e + 1
  | .excluded e, _ => e
  | .unbounded, len => len

/-- Model of std `Vec::drain` (the external primitive the source delegates
to): removes and yields `l[s..e]`, panicking (`none`) when the resolved
range is out of order or out of bounds. -/
def vecDrain (l : List α) (rng : RangeB) : Option (List α × List α) :=
  if startIdx rng.start ≤ endIdx rng.stop l.length ∧ endIdx rng.stop l.length ≤ l.length then
    some ((l.drop (startIdx rng.start)).take (endIdx rng.stop l.length - startIdx rng.start),
      l.take (startIdx rng.start) ++ l.drop (endIdx rng.stop l.length))
  else none

/-- `leftover_start` (lines 280-284): whether the range leaves space at the
start of the vector. -/
def leftoverStart (rng : RangeB) : Bool :=
  match rng.start with
  | .included s => decide (s > 0)
  | .excluded _ => true
  | .unbounded => false

/-- `leftover_end` (lines 287-291): whether the range leaves space at the
end of the vector of length `len`. -/
def leftoverEnd (rng : RangeB) (len : Nat) : Bool :=
  match rng.stop with
  | .excluded e => decide (e < len)
  | .included e => decide (e < len - 1)
  | .unbounded => false

/-- `NonEmpty::drain` (lines 277-299): panics (`none`) when neither bound
leaves an element over — both bounds are inspected before any element is
moved — and otherwise delegates to `Vec::drain`. -/
def NonEmpty.drain (v : NonEmpty α) (rng : RangeB) : Option (List α × NonEmpty α) :=
  if !leftoverStart rng && !leftoverEnd rng v.toList.length then
    none
  else
    (vecDrain v.toList rng).map (fun p => (p.1, ⟨p.2⟩))

/-- A mutating operation of the public API, for invariant claims over
operation sequences. -/
inductive Op (α : Type) where
  | push (x : α)
  | pop
  | truncate (n : Nat)
  | drain (rng : RangeB)
deriving Repr

/-- Apply one public operation; `none` when the API does not permit it
(a panicking `drain`, or a zero `truncate` argument, which the source's
`NonZeroUsize` parameter type rules out). -/
def NonEmpty.applyOp (v : NonEmpty α) : Op α → Option (NonEmpty α)
  | .push x => some (v.push x)
  | .pop => some (v.pop).2
  | .truncate n => if 1 ≤ n then some (v.truncate n) else none
  | .drain rng => (v.drain rng).map (·.2)

/-- Apply a sequence of public operations, stopping at the first one the
API does not permit. -/
def NonEmpty.applyOps (v : NonEmpty α) : List (Op α) → Option (NonEmpty α)
  | [] => some v
  | op :: ops =>
    match v.applyOp op with
    | none => none
    | some w => w.applyOps ops

/-- The `DrainFilter` cursor state (lines 347-368): the physical buffer
plus the five zone indices.  `buf` is the whole `old_len`-sized allocation;
a slot that was logically moved out still physically holds its stale value,
exactly as the real buffer's bytes do. -/
structure DrainFilter (α : Type) where
  buf : List α
  left : Nat
  i : Nat
  r : Nat
  right : Nat
  old_len : Nat
deriving Repr, DecidableEq

/-- `DrainFilter::new` (lines 373-390): `left = i = 0`,
`r = right = old_len = vec.len()`. -/
def DrainFilter.new (v : List α) : DrainFilter α :=
  { buf := v, left := 0, i := 0, r := v.length, right := v.length, old_len := v.length }

/-- `DrainFilter::pop_front` (lines 392-408): while `r - i > 1`, move the
element at index `i` out and advance `i`. -/
def DrainFilter.pop_front [Inhabited α] (s : DrainFilter α) : Option (α × DrainFilter α) :=
  if s.r - s.i > 1 then
    some (s.buf.getD s.i default, { s with i := s.i + 1 })
  else
    none

/-- `DrainFilter::pop_back` (lines 409-421): while `r - i > 1`, move the
element at index `r - 1` out and decrement `r`. -/
def DrainFilter.pop_back [Inhabited α] (s : DrainFilter α) : Option (α × DrainFilter α) :=
  if s.r - s.i > 1 then
    some (s.buf.getD (s.r - 1) default, { s with r := s.r - 1 })
  else
    none

/-- `DrainFilter::insert_front` (lines 423-438): panics (`none`) when
`left >= i`, otherwise writes the item at index `left` and advances `left`. -/
def DrainFilter.insert_front (s : DrainFilter α) (item : α) : Option (DrainFilter α) :=
  if s.left ≥ s.i then none
  else some { s with buf := s.buf.set s.left item, left := s.left + 1 }

/-- `DrainFilter::insert_back` (lines 439-454): panics (`none`) when
`right <= r`, otherwise writes the item at index `right - 1` and decrements
`right`. -/
def DrainFilter.insert_back (s : DrainFilter α) (item : α) : Option (DrainFilter α) :=
  if s.right ≤ s.r then none
  else some { s with buf := s.buf.set (s.right - 1) item, right := s.right - 1 }

/-- `DrainFilter::size_hint` (lines 502-505): `(0, Some(r - i - 1))`. -/
def DrainFilter.size_hint (s : DrainFilter α) : Nat × Option Nat :=
  (0, some (s.r - s.i - 1))

/-!
The predicate `F: FnMut(&mut T) -> bool` is a stateful closure; it is
embedded as `f : σ → α → Bool × σ` for an arbitrary closure-state type `σ`
(element mutation through `&mut T` is not modelled; all claims use
non-mutating predicates).  The `loop` in `Iterator::next` (lines 487-501)
is embedded with an explicit fuel argument: each pass around the loop
strictly decreases `r - i`, so presupplying fuel `r - i + 1` makes the fuel
branch unreachable and the function total and structurally recursive.
A result of `none` is a panic; `some (none, s, fs)` is an exhausted `next`
returning `None`; `some (some x, s, fs)` yields `x`.
-/

/-- `Iterator::next` for `DrainFilter` (lines 487-501), fuelled loop body:
pop from the front, test the predicate, yield on `true`, write back via
`insert_front` and loop on `false`. -/
def DrainFilter.nextAux [Inhabited α] (f : σ → α → Bool × σ) :
    Nat → DrainFilter α → σ → Option (Option α × DrainFilter α × σ)
  | 0, _, _ => none
  | fuel + 1, s, fs =>
    match s.pop_front with
    | none => some (none, s, fs)
    | some (item, s1) =>
      match f fs item with
      | (true, fs1) => some (some item, s1, fs1)
      | (false, fs1) =>
        match s1.insert_front item with
        | none => none
        | some s2 => DrainFilter.nextAux f fuel s2 fs1

/-- `Iterator::next` for `DrainFilter` (lines 487-501). -/
def DrainFilter.next [Inhabited α] (f : σ → α → Bool × σ) (s : DrainFilter α) (fs : σ) :
    Option (Option α × DrainFilter α × σ) :=
  DrainFilter.nextAux f (s.r - s.i + 1) s fs

/-- `DoubleEndedIterator::next_back` (lines 507-522), fuelled loop body:
symmetric to `next`, using `pop_back` and `insert_back`. -/
def DrainFilter.nextBackAux [Inhabited α] (f : σ → α → Bool × σ) :
    Nat → DrainFilter α → σ → Option (Option α × DrainFilter α × σ)
  | 0, _, _ => none
  | fuel + 1, s, fs =>
    match s.pop_back with
    | none => some (none, s, fs)
    | some (item, s1) =>
      match f fs item with
      | (true, fs1) => some (some item, s1, fs1)
      | (false, fs1) =>
        match s1.insert_back item with
        | none => none
        | some s2 => DrainFilter.nextBackAux f fuel s2 fs1

/-- `DoubleEndedIterator::next_back` (lines 507-522). -/
def DrainFilter.next_back [Inhabited α] (f : σ → α → Bool × σ) (s : DrainFilter α) (fs : σ) :
    Option (Option α × DrainFilter α × σ) :=
  DrainFilter.nextBackAux f (s.r - s.i + 1) s fs

/-- First loop of `Drop::drop` (lines 461-464): `while let Some(item) =
self.pop_front() { self.insert_front(item); }`.  Fuelled like `next`. -/
def DrainFilter.dropLoop1Aux [Inhabited α] :
    Nat → DrainFilter α → Option (DrainFilter α)
  | 0, _ => none
  | fuel + 1, s =>
    match s.pop_front with
    | none => some s
    | some (item, s1) =>
      match s1.insert_front item with
      | none => none
      | some s2 => DrainFilter.dropLoop1Aux fuel s2

/-- Second loop of `Drop::drop` (lines 465-478): while `right < old_len`,
read the item at index `right - 1`, increment `right`, write it at index
`left`, increment `left`.  Each pass decreases `old_len - right` by one, so
that difference is exact fuel. -/
def DrainFilter.dropLoop2Aux [Inhabited α] : Nat → DrainFilter α → DrainFilter α
  | 0, s => s
  | fuel + 1, s =>
    if s.right < s.old_len then
      let item := s.buf.getD (s.right - 1) default
      DrainFilter.dropLoop2Aux fuel
        { s with buf := s.buf.set s.left item, left := s.left + 1, right := s.right + 1 }
    else s

/-- `impl Drop for DrainFilter` (lines 456-480): the two loops in order.
Note the source's `drop` ends here — it never updates the vector's length. -/
def DrainFilter.finalize [Inhabited α] (s : DrainFilter α) : Option (DrainFilter α) :=
  match DrainFilter.dropLoop1Aux (s.r - s.i + 1) s with
  | none => none
  | some s1 => some (DrainFilter.dropLoop2Aux (s1.old_len - s1.right) s1)

/-- A driving direction for the double-ended cursor. -/
inductive Dir where
  | front
  | back
deriving Repr, DecidableEq

/-- Drive the cursor by a sequence of `next` / `next_back` calls,
collecting the yielded elements and threading the closure state.  `none`
propagates a panic. -/
def DrainFilter.drive [Inhabited α] (f : σ → α → Bool × σ) :
    List Dir → DrainFilter α → σ → Option (List α × DrainFilter α × σ)
  | [], s, fs => some ([], s, fs)
  | d :: ds, s, fs =>
    match (match d with | Dir.front => s.next f fs | Dir.back => s.next_back f fs) with
    | none => none
    | some (y, s1, fs1) =>
      match DrainFilter.drive f ds s1 fs1 with
      | none => none
      | some (ys, s2, fs2) => some (y.toList ++ ys, s2, fs2)

/-- `NonEmpty::drain_filter` (lines 338-344) driven by `ds` and then
dropped: the container afterwards is the cursor's whole buffer, because the
source's `Drop` impl never adjusts the vector's length (see lines 456-480
and the struct fields, which hold only a raw pointer to the buffer). -/
def NonEmpty.drainFilterRun [Inhabited α] (v : NonEmpty α) (f : σ → α → Bool × σ)
    (fs : σ) (ds : List Dir) : Option (List α × NonEmpty α × σ) :=
  match DrainFilter.drive f ds (DrainFilter.new v.toList) fs with
  | none => none
  | some (ys, s1, fs1) =>
    match s1.finalize with
    | none => none
    | some s2 => some (ys, ⟨s2.buf⟩, fs1)

/-- An instrumented closure for counting predicate invocations: it behaves
like the pure predicate `q` and bumps its closure state on every call. -/
def countP (q : α → Bool) : Nat → α → Bool × Nat := fun n x => (q x, n + 1)

/-! ## Claims about the container operations -/

/-- C5: on a length-1 container `pop` returns `none` and leaves the
container unchanged; on a container of length `n > 1` it removes and
returns the last element, leaving the first `n - 1` elements unchanged. -/
theorem C5_pop (α : Type) (v : NonEmpty α) :
    (v.toList.length = 1 → v.pop = (none, v)) ∧
    (1 < v.toList.length →
      (v.pop).1 = v.toList[v.toList.length - 1]? ∧
      (v.pop).2.toList = v.toList.take (v.toList.length - 1)) := by
  constructor
  · intro h
    simp [NonEmpty.pop, h]
  · intro h
    have hle : ¬ v.toList.length ≤ 1 := by omega
    refine ⟨?_, ?_⟩
    · simp [NonEmpty.pop, hle, List.getLast?_eq_getElem?]
    · simp [NonEmpty.pop, hle, List.dropLast_eq_take]

/-- Witness for C5 at concrete inputs. -/
theorem C5_pop_witness :
    ((⟨[10, 20]⟩ : NonEmpty Nat).pop.1 = [10, 20][1]? ∧
      (⟨[10, 20]⟩ : NonEmpty Nat).pop.2.toList = [10, 20].take 1) ∧
    (⟨[7]⟩ : NonEmpty Nat).pop = (none, ⟨[7]⟩) :=
  ⟨(C5_pop Nat ⟨[10, 20]⟩).2 (by decide), (C5_pop Nat ⟨[7]⟩).1 (by decide)⟩

/-- C9: serialization is the plain ordered list of elements, deserializing
it reproduces an equal container, and deserializing an empty list fails
with the empty-input error. -/
theorem C9_serde (α : Type) (v : NonEmpty α) (hv : 1 ≤ v.toList.length) :
    NonEmpty.serialize v = v.toList ∧
    NonEmpty.deserialize (NonEmpty.serialize v) = Except.ok v ∧
    NonEmpty.deserialize ([] : List α) = Except.error "empty vector" := by
  refine ⟨rfl, ?_, ?_⟩
  · cases v with
    | mk l =>
      cases l with
      | nil => simp at hv
      | cons a t => simp [NonEmpty.deserialize, NonEmpty.serialize, NonEmpty.tryFrom]
  · simp [NonEmpty.deserialize, NonEmpty.tryFrom]

/-- Witness for C9 at a concrete input. -/
theorem C9_serde_witness :
    NonEmpty.deserialize (NonEmpty.serialize (⟨[3, 1]⟩ : NonEmpty Nat)) = Except.ok ⟨[3, 1]⟩ :=
  (C9_serde Nat ⟨[3, 1]⟩ (by decide)).2.1

/-- C10: for a strictly positive `m`, `truncate m` keeps exactly the first
`min n m` elements, and is the identity when `m ≥ n`. -/
theorem C10_truncate (α : Type) (v : NonEmpty α) (m : Nat) (hm : 1 ≤ m) :
    (v.truncate m).toList = v.toList.take (min v.toList.length m) ∧
    (v.toList.length ≤ m → v.truncate m = v) := by
  constructor
  · rcases Nat.le_total m v.toList.length with h | h
    · simp [NonEmpty.truncate, Nat.min_eq_right h]
    · simp [NonEmpty.truncate, Nat.min_eq_left h, List.take_of_length_le h]
  · intro h
    cases v with
    | mk l => simp [NonEmpty.truncate, List.take_of_length_le h]

/-- Witness for C10 at concrete inputs. -/
theorem C10_truncate_witness :
    ((⟨[5, 6, 7]⟩ : NonEmpty Nat).truncate 2).toList = [5, 6, 7].take (min 3 2) ∧
    (⟨[5, 6, 7]⟩ : NonEmpty Nat).truncate 9 = ⟨[5, 6, 7]⟩ :=
  ⟨(C10_truncate Nat ⟨[5, 6, 7]⟩ 2 (by decide)).1,
    (C10_truncate Nat ⟨[5, 6, 7]⟩ 9 (by decide)).2 (by decide)⟩

/-- Index correspondence for the drained segment `l[s..e]`. -/
theorem drained_getElem (l : List α) (s e k : Nat) (hk : k < e - s) :
    ((l.drop s).take (e - s))[k]? = l[s + k]? := by
  rw [List.getElem?_take, if_pos hk, List.getElem?_drop]

/-- The panic condition of `NonEmpty::drain` holds exactly when the
resolved range covers every index of the vector. -/
theorem drain_panic_iff (rng : RangeB) (len : Nat) (h1 : 1 ≤ len)
    (h3 : endIdx rng.stop len ≤ len) :
    ((!leftoverStart rng && !leftoverEnd rng len) = true) ↔
      (startIdx rng.start = 0 ∧ endIdx rng.stop len = len) := by
  rcases rng with ⟨b1, b2⟩
  rcases b1 with s0 | s0 | _ <;> rcases b2 with e0 | e0 | _ <;>
    simp [leftoverStart, leftoverEnd, startIdx, endIdx] at h3 ⊢ <;> omega

/-- C6: for in-order, in-bounds range bounds, `drain` panics exactly when
the resolved range covers all of `[0, length)` (both bounds are checked
before any element moves, so the panicking branch returns the container
untouched), and otherwise yields precisely the elements of the range, in
order, leaving the complement. -/
theorem C6_drain (α : Type) (v : NonEmpty α) (rng : RangeB)
    (h1 : 1 ≤ v.toList.length)
    (h2 : startIdx rng.start ≤ endIdx rng.stop v.toList.length)
    (h3 : endIdx rng.stop v.toList.length ≤ v.toList.length) :
    (v.drain rng = none ↔
      (startIdx rng.start = 0 ∧ endIdx rng.stop v.toList.length = v.toList.length)) ∧
    (∀ d w, v.drain rng = some (d, w) →
      d.length = endIdx rng.stop v.toList.length - startIdx rng.start ∧
      (∀ k, k < d.length → d[k]? = v.toList[startIdx rng.start + k]?) ∧
      w.toList = v.toList.take (startIdx rng.start) ++
        v.toList.drop (endIdx rng.stop v.toList.length)) := by
  have hvd : vecDrain v.toList rng =
      some ((v.toList.drop (startIdx rng.start)).take
              (endIdx rng.stop v.toList.length - startIdx rng.start),
            v.toList.take (startIdx rng.start) ++
              v.toList.drop (endIdx rng.stop v.toList.length)) := by
    simp only [vecDrain]
    rw [if_pos ⟨h2, h3⟩]
  have key := drain_panic_iff rng v.toList.length h1 h3
  constructor
  · rw [NonEmpty.drain]
    by_cases hp : (!leftoverStart rng && !leftoverEnd rng v.toList.length) = true
    · simp only [hp, if_true]
      simpa using key.mp hp
    · simp only [hp, if_false, Bool.false_eq_true, hvd, Option.map_some']
      constructor
      · intro hc; cases hc
      · intro hc; exact absurd (key.mpr hc) hp
  · intro d w hdw
    rw [NonEmpty.drain] at hdw
    by_cases hp : (!leftoverStart rng && !leftoverEnd rng v.toList.length) = true
    · simp [hp] at hdw
    · rw [if_neg hp, hvd] at hdw
      cases hdw
      refine ⟨?_, ?_, rfl⟩
      · simp only [List.length_take, List.length_drop]
        omega
      · intro k hk
        simp only [List.length_take, List.length_drop] at hk
        exact drained_getElem _ _ _ _ (by omega)

/-- Witness for C6 at a concrete input: `drain(1..)` on `[0,1,2,3,4,5]`. -/
theorem C6_drain_witness :
    ((⟨[0, 1, 2, 3, 4, 5]⟩ : NonEmpty Nat).drain ⟨Bound.included 1, Bound.unbounded⟩ = none ↔
      (startIdx (Bound.included 1) = 0 ∧ endIdx Bound.unbounded 6 = 6)) ∧
    (∀ d w, (⟨[0, 1, 2, 3, 4, 5]⟩ : NonEmpty Nat).drain
        ⟨Bound.included 1, Bound.unbounded⟩ = some (d, w) →
      d.length = endIdx Bound.unbounded 6 - startIdx (Bound.included 1) ∧
      (∀ k, k < d.length → d[k]? = [0, 1, 2, 3, 4, 5][startIdx (Bound.included 1) + k]?) ∧
      w.toList = [0, 1, 2, 3, 4, 5].take (startIdx (Bound.included 1)) ++
        [0, 1, 2, 3, 4, 5].drop (endIdx Bound.unbounded 6)) :=
  C6_drain Nat ⟨[0, 1, 2, 3, 4, 5]⟩ ⟨Bound.included 1, Bound.unbounded⟩
    (by decide) (by decide) (by decide)

/-- A single permitted public operation keeps the container non-empty. -/
theorem applyOp_length (α : Type) (v w : NonEmpty α) (op : Op α)
    (hv : 1 ≤ v.toList.length) (h : v.applyOp op = some w) :
    1 ≤ w.toList.length := by
  cases op with
  | push x =>
    simp only [NonEmpty.applyOp, Option.some.injEq] at h
    subst h
    simp [NonEmpty.push]
  | pop =>
    simp only [NonEmpty.applyOp, Option.some.injEq] at h
    subst h
    rw [NonEmpty.pop]
    split
    · exact hv
    · next hc => simp only [List.length_dropLast]; omega
  | truncate n =>
    rw [NonEmpty.applyOp] at h
    split at h
    · next hn =>
      simp only [Option.some.injEq] at h
      subst h
      simp only [NonEmpty.truncate, List.length_take]
      omega
    · cases h
  | drain rng =>
    simp only [NonEmpty.applyOp] at h
    rw [NonEmpty.drain] at h
    by_cases hp : (!leftoverStart rng && !leftoverEnd rng v.toList.length) = true
    · simp [hp] at h
    · simp only [hp, if_false, Bool.false_eq_true] at h
      rw [vecDrain] at h
      split at h
      · next hse =>
        simp only [Option.map_some', Option.some.injEq] at h
        subst h
        simp only [List.length_append, List.length_take, List.length_drop]
        obtain ⟨hse1, hse2⟩ := hse
        have hnp : ¬(startIdx rng.start = 0 ∧
            endIdx rng.stop v.toList.length = v.toList.length) :=
          fun hc => hp ((drain_panic_iff rng v.toList.length hv hse2).mpr hc)
        rw [not_and_or] at hnp
        rcases hnp with hx | hx <;> omega
      · exact Option.noConfusion h

/-- C4: every sequence of permitted `push`/`pop`/`truncate`/`drain`
operations keeps the container's length at least 1. -/
theorem C4_invariant (α : Type) (v w : NonEmpty α) (ops : List (Op α))
    (hv : 1 ≤ v.toList.length) (h : v.applyOps ops = some w) :
    1 ≤ w.toList.length := by
  induction ops generalizing v with
  | nil =>
    rw [NonEmpty.applyOps] at h
    cases h
    exact hv
  | cons op ops ih =>
    rw [NonEmpty.applyOps] at h
    cases hop : v.applyOp op with
    | none => rw [hop] at h; cases h
    | some u => rw [hop] at h; exact ih u (applyOp_length α v u op hv hop) h

/-- Witness for C4 at a concrete operation sequence. -/
theorem C4_invariant_witness :
    (⟨[1, 2, 3]⟩ : NonEmpty Nat).applyOps
        [Op.push 4, Op.pop, Op.drain ⟨Bound.included 1, Bound.excluded 3⟩, Op.truncate 5]
      = some ⟨[1]⟩ ∧
    1 ≤ (⟨[1]⟩ : NonEmpty Nat).toList.length :=
  ⟨by decide,
    C4_invariant Nat ⟨[1, 2, 3]⟩ ⟨[1]⟩
      [Op.push 4, Op.pop, Op.drain ⟨Bound.included 1, Bound.excluded 3⟩, Op.truncate 5]
      (by decide) (by decide)⟩

/-! ## Evaluations of the cursor at concrete inputs

These exercise `drain_filter` exactly as the crate's own tests do
(`tests::drain_filter`, lines 673-728, and the doc examples at lines
303-337) and show that the `Drop` impl of lines 456-480 does not produce
the documented results: it leaves the last untouched element where it
stands, reads the back-settled zone at index `right - 1` (a slot in the
uninitialized gap) instead of `right`, and never shortens the vector. -/

/-- C2: filtering the odd values out of `[1,2,3,4,5,6]` yields `[1,3,5]`
as claimed, but after the cursor is dropped the container holds
`[2,4,3,4,5,6]` rather than the documented `[2,4,6]` (the final untouched
element `6` is never slid down and the length is never set). -/
theorem C2_odd_filter_eval :
    NonEmpty.drainFilterRun (⟨[1, 2, 3, 4, 5, 6]⟩ : NonEmpty Nat)
        (fun (u : Unit) x => (x % 2 == 1, u)) ()
        [Dir.front, Dir.front, Dir.front, Dir.front, Dir.front, Dir.front]
      = some ([1, 3, 5], ⟨[2, 4, 3, 4, 5, 6]⟩, ()) ∧
    ([2, 4, 3, 4, 5, 6] : List Nat) ≠ [2, 4, 6] := by
  exact ⟨by decide, by decide⟩

/-- C1: a fully backward-driven run with an even-keeping predicate on
`[1,2,3,4,5,6]`.  Finalization should leave the container `[1,3,5]`
(slide `[right, old_len)` down, set the length); the code instead reads
the uninitialized slot at `right - 1`, overwrites the untouched element
`1`, and leaves the length at 6, producing `[4,3,3,4,3,5]`. -/
theorem C1_drop_eval :
    NonEmpty.drainFilterRun (⟨[1, 2, 3, 4, 5, 6]⟩ : NonEmpty Nat)
        (fun (u : Unit) x => (x % 2 == 0, u)) ()
        [Dir.back, Dir.back, Dir.back, Dir.back, Dir.back, Dir.back]
      = some ([6, 4, 2], ⟨[4, 3, 3, 4, 3, 5]⟩, ()) ∧
    ([4, 3, 3, 4, 3, 5] : List Nat) ≠ [1, 3, 5] := by
  exact ⟨by decide, by decide⟩

/-- C3: with an always-true predicate on `[1,2,3]`, the cursor yields
`[1,2]` and the container afterwards still holds `[1,2,3]`: the yielded
elements also remain in the container, so the multiset of yields plus the
final contents is not a permutation of the original contents. -/
theorem C3_conservation_eval :
    NonEmpty.drainFilterRun (⟨[1, 2, 3]⟩ : NonEmpty Nat)
        (fun (u : Unit) _ => (true, u)) () [Dir.front, Dir.front, Dir.front]
      = some ([1, 2], ⟨[1, 2, 3]⟩, ()) ∧
    ¬ (([1, 2] ++ [1, 2, 3] : List Nat).Perm [1, 2, 3]) := by
  exact ⟨by decide, by decide⟩

/-! ## Zone-index lemmas for the cursor -/

/-- A successful `pop_front` requires `r - i > 1`, keeps `r`, bumps `i`. -/
theorem pop_front_facts [Inhabited α] {s s1 : DrainFilter α} {x : α}
    (h : s.pop_front = some (x, s1)) :
    1 < s.r - s.i ∧ s1.r = s.r ∧ s1.i = s.i + 1 := by
  rw [DrainFilter.pop_front] at h
  split at h
  · next hc =>
    simp only [Option.some.injEq, Prod.mk.injEq] at h
    obtain ⟨-, rfl⟩ := h
    exact ⟨hc, rfl, rfl⟩
  · exact Option.noConfusion h

/-- A successful `pop_back` requires `r - i > 1`, decrements `r`, keeps `i`. -/
theorem pop_back_facts [Inhabited α] {s s1 : DrainFilter α} {x : α}
    (h : s.pop_back = some (x, s1)) :
    1 < s.r - s.i ∧ s1.r = s.r - 1 ∧ s1.i = s.i := by
  rw [DrainFilter.pop_back] at h
  split at h
  · next hc =>
    simp only [Option.some.injEq, Prod.mk.injEq] at h
    obtain ⟨-, rfl⟩ := h
    exact ⟨hc, rfl, rfl⟩
  · exact Option.noConfusion h

/-- A successful `insert_front` does not move the `i` and `r` boundaries. -/
theorem insert_front_facts {s s1 : DrainFilter α} {x : α}
    (h : s.insert_front x = some s1) : s1.r = s.r ∧ s1.i = s.i := by
  rw [DrainFilter.insert_front] at h
  split at h
  · exact Option.noConfusion h
  · simp only [Option.some.injEq] at h
    subst h
    exact ⟨rfl, rfl⟩

/-- A successful `insert_back` does not move the `i` and `r` boundaries. -/
theorem insert_back_facts {s s1 : DrainFilter α} {x : α}
    (h : s.insert_back x = some s1) : s1.r = s.r ∧ s1.i = s.i := by
  rw [DrainFilter.insert_back] at h
  split at h
  · exact Option.noConfusion h
  · simp only [Option.some.injEq] at h
    subst h
    exact ⟨rfl, rfl⟩

/-- `next` keeps at least one untouched element: `r - i ≥ 1` is preserved. -/
theorem nextAux_ri [Inhabited α] (f : σ → α → Bool × σ) :
    ∀ (fuel : Nat) (s : DrainFilter α) (fs : σ) (y : Option α)
      (s1 : DrainFilter α) (fs1 : σ),
      DrainFilter.nextAux f fuel s fs = some (y, s1, fs1) →
      1 ≤ s.r - s.i → 1 ≤ s1.r - s1.i := by
  intro fuel
  induction fuel with
  | zero =>
    intro s fs y s1 fs1 h
    rw [DrainFilter.nextAux] at h
    exact absurd h (fun hh => Option.noConfusion hh)
  | succ fuel ih =>
    intro s fs y s1 fs1 h hs
    rw [DrainFilter.nextAux] at h
    cases hpf : s.pop_front with
    | none =>
      simp only [hpf] at h
      cases h
      exact hs
    | some p =>
      obtain ⟨item, st⟩ := p
      simp only [hpf] at h
      obtain ⟨hri, hr, hi⟩ := pop_front_facts hpf
      cases hf : f fs item with
      | mk keep fs2 =>
        simp only [hf] at h
        cases keep with
        | true =>
          cases h
          omega
        | false =>
          cases hins : st.insert_front item with
          | none => simp [hins] at h
          | some s2 =>
            simp only [hins] at h
            obtain ⟨hr2, hi2⟩ := insert_front_facts hins
            exact ih s2 fs2 y s1 fs1 h (by omega)

/-- `next_back` keeps at least one untouched element. -/
theorem nextBackAux_ri [Inhabited α] (f : σ → α → Bool × σ) :
    ∀ (fuel : Nat) (s : DrainFilter α) (fs : σ) (y : Option α)
      (s1 : DrainFilter α) (fs1 : σ),
      DrainFilter.nextBackAux f fuel s fs = some (y, s1, fs1) →
      1 ≤ s.r - s.i → 1 ≤ s1.r - s1.i := by
  intro fuel
  induction fuel with
  | zero =>
    intro s fs y s1 fs1 h
    rw [DrainFilter.nextBackAux] at h
    exact absurd h (fun hh => Option.noConfusion hh)
  | succ fuel ih =>
    intro s fs y s1 fs1 h hs
    rw [DrainFilter.nextBackAux] at h
    cases hpf : s.pop_back with
    | none =>
      simp only [hpf] at h
      cases h
      exact hs
    | some p =>
      obtain ⟨item, st⟩ := p
      simp only [hpf] at h
      obtain ⟨hri, hr, hi⟩ := pop_back_facts hpf
      cases hf : f fs item with
      | mk keep fs2 =>
        simp only [hf] at h
        cases keep with
        | true =>
          cases h
          omega
        | false =>
          cases hins : st.insert_back item with
          | none => simp [hins] at h
          | some s2 =>
            simp only [hins] at h
            obtain ⟨hr2, hi2⟩ := insert_back_facts hins
            exact ih s2 fs2 y s1 fs1 h (by omega)

/-- Unfolding equation for `drive` on the empty command list. -/
theorem drive_nil [Inhabited α] (f : σ → α → Bool × σ) (s : DrainFilter α) (fs : σ) :
    DrainFilter.drive f ([] : List Dir) s fs = some ([], s, fs) := rfl

/-- Unfolding equation for `drive` on a cons command list. -/
theorem drive_cons [Inhabited α] (f : σ → α → Bool × σ) (d : Dir) (ds : List Dir)
    (s : DrainFilter α) (fs : σ) :
    DrainFilter.drive f (d :: ds) s fs =
      match (match d with | Dir.front => s.next f fs | Dir.back => s.next_back f fs) with
      | none => none
      | some (y, s1, fs1) =>
        match DrainFilter.drive f ds s1 fs1 with
        | none => none
        | some (ys, s2, fs2) => some (y.toList ++ ys, s2, fs2) := rfl

/-- Driving preserves `r - i ≥ 1`. -/
theorem drive_ri [Inhabited α] (f : σ → α → Bool × σ) :
    ∀ (ds : List Dir) (s : DrainFilter α) (fs : σ) (ys : List α)
      (s1 : DrainFilter α) (fs1 : σ),
      DrainFilter.drive f ds s fs = some (ys, s1, fs1) →
      1 ≤ s.r - s.i → 1 ≤ s1.r - s1.i := by
  intro ds
  induction ds with
  | nil =>
    intro s fs ys s1 fs1 h hs
    rw [drive_nil] at h
    cases h
    exact hs
  | cons d ds ih =>
    intro s fs ys s1 fs1 h hs
    rw [drive_cons] at h
    cases d with
    | front =>
      cases hst : s.next f fs with
      | none =>
        rw [hst] at h
        exact Option.noConfusion h
      | some t =>
        obtain ⟨y, s2, fs2⟩ := t
        simp only [hst] at h
        have hs2 : 1 ≤ s2.r - s2.i := nextAux_ri f _ s fs y s2 fs2 hst hs
        cases hrec : DrainFilter.drive f ds s2 fs2 with
        | none =>
          rw [hrec] at h
          exact Option.noConfusion h
        | some u =>
          obtain ⟨ys2, s3, fs3⟩ := u
          simp only [hrec] at h
          cases h
          exact ih s2 fs2 ys2 s1 fs1 hrec hs2
    | back =>
      cases hst : s.next_back f fs with
      | none =>
        rw [hst] at h
        exact Option.noConfusion h
      | some t =>
        obtain ⟨y, s2, fs2⟩ := t
        simp only [hst] at h
        have hs2 : 1 ≤ s2.r - s2.i := nextBackAux_ri f _ s fs y s2 fs2 hst hs
        cases hrec : DrainFilter.drive f ds s2 fs2 with
        | none =>
          rw [hrec] at h
          exact Option.noConfusion h
        | some u =>
          obtain ⟨ys2, s3, fs3⟩ := u
          simp only [hrec] at h
          cases h
          exact ih s2 fs2 ys2 s1 fs1 hrec hs2

/-- With the counting closure, each `next` call bumps the counter exactly
once per element popped for classification: the counter plus the size of
the untouched zone is constant. -/
theorem nextAux_count [Inhabited α] (q : α → Bool) :
    ∀ (fuel : Nat) (s : DrainFilter α) (c : Nat) (y : Option α)
      (s1 : DrainFilter α) (c1 : Nat),
      DrainFilter.nextAux (countP q) fuel s c = some (y, s1, c1) →
      c1 + (s1.r - s1.i) = c + (s.r - s.i) := by
  intro fuel
  induction fuel with
  | zero =>
    intro s c y s1 c1 h
    rw [DrainFilter.nextAux] at h
    exact absurd h (fun hh => Option.noConfusion hh)
  | succ fuel ih =>
    intro s c y s1 c1 h
    rw [DrainFilter.nextAux] at h
    cases hpf : s.pop_front with
    | none =>
      simp only [hpf] at h
      cases h
      rfl
    | some p =>
      obtain ⟨item, st⟩ := p
      simp only [hpf] at h
      obtain ⟨hri, hr, hi⟩ := pop_front_facts hpf
      simp only [countP] at h
      cases hq : q item with
      | true =>
        simp only [hq] at h
        cases h
        omega
      | false =>
        simp only [hq] at h
        cases hins : st.insert_front item with
        | none =>
          rw [hins] at h
          exact Option.noConfusion h
        | some s2 =>
          simp only [hins] at h
          obtain ⟨hr2, hi2⟩ := insert_front_facts hins
          have := ih s2 (c + 1) y s1 c1 h
          omega

/-- Counting invariant for `next_back`. -/
theorem nextBackAux_count [Inhabited α] (q : α → Bool) :
    ∀ (fuel : Nat) (s : DrainFilter α) (c : Nat) (y : Option α)
      (s1 : DrainFilter α) (c1 : Nat),
      DrainFilter.nextBackAux (countP q) fuel s c = some (y, s1, c1) →
      c1 + (s1.r - s1.i) = c + (s.r - s.i) := by
  intro fuel
  induction fuel with
  | zero =>
    intro s c y s1 c1 h
    rw [DrainFilter.nextBackAux] at h
    exact absurd h (fun hh => Option.noConfusion hh)
  | succ fuel ih =>
    intro s c y s1 c1 h
    rw [DrainFilter.nextBackAux] at h
    cases hpf : s.pop_back with
    | none =>
      simp only [hpf] at h
      cases h
      rfl
    | some p =>
      obtain ⟨item, st⟩ := p
      simp only [hpf] at h
      obtain ⟨hri, hr, hi⟩ := pop_back_facts hpf
      simp only [countP] at h
      cases hq : q item with
      | true =>
        simp only [hq] at h
        cases h
        omega
      | false =>
        simp only [hq] at h
        cases hins : st.insert_back item with
        | none =>
          rw [hins] at h
          exact Option.noConfusion h
        | some s2 =>
          simp only [hins] at h
          obtain ⟨hr2, hi2⟩ := insert_back_facts hins
          have := ih s2 (c + 1) y s1 c1 h
          omega

/-- Counting invariant for a whole drive: the number of predicate
invocations equals the shrinkage of the untouched zone. -/
theorem drive_count [Inhabited α] (q : α → Bool) :
    ∀ (ds : List Dir) (s : DrainFilter α) (c : Nat) (ys : List α)
      (s1 : DrainFilter α) (c1 : Nat),
      DrainFilter.drive (countP q) ds s c = some (ys, s1, c1) →
      c1 + (s1.r - s1.i) = c + (s.r - s.i) := by
  intro ds
  induction ds with
  | nil =>
    intro s c ys s1 c1 h
    rw [drive_nil] at h
    cases h
    rfl
  | cons d ds ih =>
    intro s c ys s1 c1 h
    rw [drive_cons] at h
    cases d with
    | front =>
      cases hst : s.next (countP q) c with
      | none =>
        rw [hst] at h
        exact Option.noConfusion h
      | some t =>
        obtain ⟨y, s2, c2⟩ := t
        simp only [hst] at h
        have h2 := nextAux_count q _ s c y s2 c2 hst
        cases hrec : DrainFilter.drive (countP q) ds s2 c2 with
        | none =>
          rw [hrec] at h
          exact Option.noConfusion h
        | some u =>
          obtain ⟨ys2, s3, c3⟩ := u
          simp only [hrec] at h
          cases h
          have h3 := ih s2 c2 ys2 s1 c1 hrec
          omega
    | back =>
      cases hst : s.next_back (countP q) c with
      | none =>
        rw [hst] at h
        exact Option.noConfusion h
      | some t =>
        obtain ⟨y, s2, c2⟩ := t
        simp only [hst] at h
        have h2 := nextBackAux_count q _ s c y s2 c2 hst
        cases hrec : DrainFilter.drive (countP q) ds s2 c2 with
        | none =>
          rw [hrec] at h
          exact Option.noConfusion h
        | some u =>
          obtain ⟨ys2, s3, c3⟩ := u
          simp only [hrec] at h
          cases h
          have h3 := ih s2 c2 ys2 s1 c1 hrec
          omega

/-- On a singleton container `next` is immediately exhausted: the cursor
state and the closure state are untouched (the predicate is not called). -/
theorem next_singleton [Inhabited α] (f : σ → α → Bool × σ) (x : α) (fs : σ) :
    (DrainFilter.new [x]).next f fs = some (none, DrainFilter.new [x], fs) := rfl

/-- On a singleton container `next_back` is immediately exhausted. -/
theorem next_back_singleton [Inhabited α] (f : σ → α → Bool × σ) (x : α) (fs : σ) :
    (DrainFilter.new [x]).next_back f fs = some (none, DrainFilter.new [x], fs) := rfl

/-- On a singleton container every drive yields nothing and changes
neither the cursor nor the closure state. -/
theorem drive_singleton [Inhabited α] (f : σ → α → Bool × σ) (x : α) (fs : σ) :
    ∀ ds : List Dir,
      DrainFilter.drive f ds (DrainFilter.new [x]) fs =
        some ([], DrainFilter.new [x], fs) := by
  intro ds
  induction ds with
  | nil => rw [drive_nil]
  | cons d ds ih =>
    rw [drive_cons]
    cases d with
    | front => simp [next_singleton, ih]
    | back => simp [next_back_singleton, ih]

/-- Finalization of the cursor on a singleton container is the identity. -/
theorem finalize_singleton [Inhabited α] (x : α) :
    (DrainFilter.new [x]).finalize = some (DrainFilter.new [x]) := rfl

/-- C8: the cursor's size estimate is `(0, r - i - 1)` at every point, a
fresh cursor over a length-`n` container reports `(0, n - 1)`, and along
every drive the untouched zone keeps `r - i ≥ 1`, so the reported upper
bound never underflows. -/
theorem C8_size_hint (α : Type) (σ : Type) [Inhabited α] (v : List α)
    (f : σ → α → Bool × σ) (fs : σ) (ds : List Dir) (hv : 1 ≤ v.length) :
    (∀ s : DrainFilter α, s.size_hint = (0, some (s.r - s.i - 1))) ∧
    (DrainFilter.new v : DrainFilter α).size_hint = (0, some (v.length - 1)) ∧
    (∀ ys s1 fs1,
      DrainFilter.drive f ds (DrainFilter.new v) fs = some (ys, s1, fs1) →
      1 ≤ s1.r - s1.i ∧ s1.size_hint = (0, some (s1.r - s1.i - 1))) := by
  refine ⟨fun s => rfl, rfl, ?_⟩
  intro ys s1 fs1 h
  have hri : 1 ≤ s1.r - s1.i :=
    drive_ri f ds (DrainFilter.new v) fs ys s1 fs1 h
      (by simpa [DrainFilter.new] using hv)
  exact ⟨hri, rfl⟩

/-- Witness for C8 at a concrete input. -/
theorem C8_size_hint_witness :
    (DrainFilter.new [1, 2, 3] : DrainFilter Nat).size_hint = (0, some 2) :=
  (C8_size_hint Nat Unit [1, 2, 3] (fun u x => (x == 1, u)) () [Dir.front]
    (by decide)).2.1

/-- C7: `pop_front`/`pop_back` only remove an element while `r - i > 1`;
with a counting closure, any drive of a length-`n` container invokes the
predicate fewer than `n` times, so at least one element is never offered
to it; and on a length-1 container the predicate is never invoked (an
arbitrary closure's state passes through untouched), nothing is yielded,
and the container survives finalization unchanged. -/
theorem C7_never_all (α : Type) (σ : Type) [Inhabited α] (x : α) (v : List α)
    (f : σ → α → Bool × σ) (fs : σ) (ds : List Dir) (q : α → Bool)
    (hv : 1 ≤ v.length) :
    (∀ s : DrainFilter α, s.pop_front.isSome → 1 < s.r - s.i) ∧
    (∀ s : DrainFilter α, s.pop_back.isSome → 1 < s.r - s.i) ∧
    (∀ ys s1 c,
      DrainFilter.drive (countP q) ds (DrainFilter.new v) 0 = some (ys, s1, c) →
      c < v.length) ∧
    DrainFilter.drive f ds (DrainFilter.new [x]) fs =
      some ([], DrainFilter.new [x], fs) ∧
    NonEmpty.drainFilterRun (NonEmpty.new x) f fs ds = some ([], NonEmpty.new x, fs) := by
  refine ⟨?_, ?_, ?_, drive_singleton f x fs ds, ?_⟩
  · intro s hs
    rw [DrainFilter.pop_front] at hs
    by_cases hc : 1 < s.r - s.i
    · exact hc
    · rw [if_neg hc] at hs
      simp at hs
  · intro s hs
    rw [DrainFilter.pop_back] at hs
    by_cases hc : 1 < s.r - s.i
    · exact hc
    · rw [if_neg hc] at hs
      simp at hs
  · intro ys s1 c h
    have hsum := drive_count q ds (DrainFilter.new v) 0 ys s1 c h
    have hri : 1 ≤ s1.r - s1.i :=
      drive_ri (countP q) ds (DrainFilter.new v) 0 ys s1 c h
        (by simpa [DrainFilter.new] using hv)
    simp only [DrainFilter.new, Nat.sub_zero] at hsum
    omega
  · simp only [NonEmpty.drainFilterRun]
    have hx : (NonEmpty.new x).toList = [x] := rfl
    rw [hx, drive_singleton f x fs ds]
    rfl

/-- Witness for C7 at a concrete input. -/
theorem C7_never_all_witness :
    NonEmpty.drainFilterRun (NonEmpty.new 9) (fun (u : Unit) (_ : Nat) => (true, u)) ()
        [Dir.front, Dir.back] = some ([], NonEmpty.new 9, ()) :=
  (C7_never_all Nat Unit 9 [5, 6] (fun u _ => (true, u)) () [Dir.front, Dir.back]
    (fun _ => true) (by decide)).2.2.2.2

end NonEmptyVec
